import Mathlib

/-!
Verification of `generate_requirements.txt.py`: a shallow embedding of
the import-scanning and distribution-resolution core, the
manifest-writing driver, and the duration formatter, with theorems
checking the natural-language specification against this embedding.

Modelling conventions:
* A Python `Mapping[str, Sequence[str]]` (the module-to-package index) is an
  association list `List (String × List String)` queried with `List.lookup`.
* A parsed syntax tree, as traversed by `ast.walk`, is flattened to the list
  of its nodes; only the import-statement shapes matter, all other node
  kinds are collapsed into `AstNode.other`.
* A candidate source file is abstracted to its parse outcome `FileState`:
  missing (not a regular file), invalid (exists but not syntactically
  valid), or valid with its node list.
* The output manifest on disk is `Option String`: `none` means the file
  `requirements.txt` does not exist, `some c` that it exists with content
  `c`.
* Machine floats do not appear: `format_duration_long` is modelled on the
  already-truncated nanosecond count (a `Nat`, since the claims concern
  non-negative durations).
-/

/-- The shapes of syntax-tree nodes that `find_third_party_imports`
inspects: `ast.Import` carries the dotted `alias.name` of each imported
module, `ast.ImportFrom` carries `node.module` (`none` for a relative
form such as `from . import x`), and every other node kind is `other`. -/
inductive AstNode where
  | importStmt (names : List String)
  | importFrom (module : Option String)
  | other
deriving DecidableEq

/-- The module names a single node contributes, mirroring the
`isinstance` dispatch in the walk loop: an `ast.Import` contributes every
alias name, an `ast.ImportFrom` contributes its module when present, and
everything else contributes nothing. -/
def collected_names (node : AstNode) : List String :=
  match node with
  | .importStmt names => names
  | .importFrom (some m) => [m]
  | .importFrom none => []
  | .other => []

/-- `full_name.partition(".")[0]`: the text before the first dot, or the
whole string when it has no dot. -/
def first_segment (s : String) : String :=
  String.mk (s.data.takeWhile (fun c => c ≠ '.'))

/-- `resolve_distribution(import_name, import_to_dist)`: look up the
candidate list; if it is non-empty and its first entry differs from the
input name, return that first entry, else return the input name. -/
def resolve_distribution (import_name : String)
    (import_to_dist : List (String × List String)) : String :=
  match import_to_dist.lookup import_name with
  | some (d :: _) => if d ≠ import_name then d else import_name
  | _ => import_name

/-- The body of the inner loop of `find_third_party_imports`: truncate the
collected name to its first dot-separated segment, skip it when it is a
standard-library name, otherwise resolve it and add the result to the
accumulating set. -/
def step_name (stdlib : List String) (idx : List (String × List String))
    (acc : Finset String) (full_name : String) : Finset String :=
  let name := first_segment full_name
  if name ∈ stdlib then acc
  else insert (resolve_distribution name idx) acc

/-- Processing of one walked node: fold the inner loop over the names the
node contributes. -/
def step_node (stdlib : List String) (idx : List (String × List String))
    (acc : Finset String) (node : AstNode) : Finset String :=
  (collected_names node).foldl (step_name stdlib idx) acc

/-- The walk of `find_third_party_imports` over a parsed tree: starting
from the empty set, process every node in order. -/
def extract_nodes (stdlib : List String) (idx : List (String × List String))
    (nodes : List AstNode) : Finset String :=
  nodes.foldl (step_node stdlib idx) ∅

/-- The parse outcome of one candidate path: `missing` when
`path.is_file()` is false, `invalid` when `ast.parse` raises a syntax
error, `valid nodes` when parsing succeeds with the given walked nodes. -/
inductive FileState where
  | missing
  | invalid
  | valid (nodes : List AstNode)
deriving DecidableEq

/-- The two fatal errors `find_third_party_imports` can raise:
`FileNotFoundError` from the `is_file` guard and `SyntaxError` from
`ast.parse`. -/
inductive ExtractError where
  | notFound
  | parseError
deriving DecidableEq

/-- `find_third_party_imports(file_path)`: raise `FileNotFoundError` when
the path is not a regular file, propagate the parse error when the content
is not valid Python, and otherwise return the extracted set. -/
def find_third_party_imports (stdlib : List String)
    (idx : List (String × List String)) (file : FileState) :
    Except ExtractError (Finset String) :=
  match file with
  | .missing => .error .notFound
  | .invalid => .error .parseError
  | .valid nodes => .ok (extract_nodes stdlib idx nodes)

/-- The scanning loop of `main`: run `find_third_party_imports` over each
candidate file in turn, `update`-ing one accumulated set; the first error
raised aborts the whole loop. -/
def scan_files (stdlib : List String) (idx : List (String × List String)) :
    List FileState → Except ExtractError (Finset String)
  | [] => .ok ∅
  | f :: rest =>
    match find_third_party_imports stdlib idx f with
    | .error e => .error e
    | .ok s =>
      match scan_files stdlib idx rest with
      | .error e => .error e
      | .ok acc => .ok (s ∪ acc)

/-- The manifest content `write_requirements` produces for a non-empty
set: each module of `sorted(non_std_modules)` on its own line, the file
opened with `newline="\n"` so every line ends in a bare LF. -/
def requirements_text (non_std_modules : Finset String) : String :=
  String.join ((non_std_modules.sort (· ≤ ·)).map (fun module => module ++ "\n"))

/-- `write_requirements(non_std_modules)` as a transformer of the manifest
file's state: when the set is empty the function logs and returns without
touching the file; otherwise it overwrites the manifest with the sorted
listing. -/
def write_requirements (non_std_modules : Finset String)
    (manifest : Option String) : Option String :=
  if non_std_modules = ∅ then manifest
  else some (requirements_text non_std_modules)

/-- The manifest decision at the end of `main`: when
`len(non_std_modules) == 0`, remove `requirements.txt` if it exists (so
the file is gone either way); otherwise call `write_requirements`. -/
def manifest_step (non_std_modules : Finset String)
    (manifest : Option String) : Option String :=
  if non_std_modules.card = 0 then none
  else write_requirements non_std_modules manifest

/-- Python's `str.endswith`: the suffix's characters close the string. -/
def ends_with (s suffix : String) : Bool :=
  suffix.data.isSuffixOf s.data

/-- The candidate enumeration of `main`: keep the directory entries ending
in `.py` or `.pyw`, dropping the running script's own name and the
hardcoded `generate_requirements.txt.pyw`. -/
def candidate_files (listing : List String) (current_file : String) :
    List String :=
  listing.filter (fun f =>
    (ends_with f ".py" || ends_with f ".pyw") && f ≠ current_file &&
      f ≠ "generate_requirements.txt.pyw")

/-- `main()` over an abstract directory: `listing` is `os.listdir(".")`,
`content` gives each name's parse outcome, and `manifest` is the state of
`requirements.txt`. Returns the run's outcome together with the final
manifest state; an empty candidate list returns early, and an extraction
error propagates out of `main` leaving the manifest untouched. -/
def main_run (stdlib : List String) (idx : List (String × List String))
    (listing : List String) (current_file : String)
    (content : String → FileState) (manifest : Option String) :
    Except ExtractError Unit × Option String :=
  let python_files := candidate_files listing current_file
  if python_files.isEmpty then (.ok (), manifest)
  else
    match scan_files stdlib idx (python_files.map content) with
    | .error e => (.error e, manifest)
    | .ok non_std_modules => (.ok (), manifest_step non_std_modules manifest)

/-- The unit table of `format_duration_long`, largest factor first, each
factor in nanoseconds. -/
def duration_units : List (String × Nat) :=
  [("y", 365 * 24 * 60 * 60 * 1000000000),
   ("mo", 30 * 24 * 60 * 60 * 1000000000),
   ("d", 24 * 60 * 60 * 1000000000),
   ("h", 60 * 60 * 1000000000),
   ("m", 60 * 1000000000),
   ("s", 1000000000),
   ("ms", 1000000),
   ("us", 1000),
   ("ns", 1)]


/-- The `for name, factor in units` loop of `format_duration_long`:
`value, ns = divmod(ns, factor)`, append `f"{value}{name}"` when the value
is non-zero, and break as soon as two parts have been collected. -/
def fd_loop : List (String × Nat) → Nat → List String → List String
  | [], _, parts => parts
  | (name, factor) :: rest, ns, parts =>
    let value := ns / factor
    let ns2 := ns % factor
    let parts2 := if value ≠ 0 then parts ++ [toString value ++ name] else parts
    if parts2.length = 2 then parts2 else fd_loop rest ns2 parts2

/-- `format_duration_long` on the truncated nanosecond count: run the unit
loop and join the collected parts, with `"0s"` when no part was
collected. -/
def format_duration_long (ns : Nat) : String :=
  let parts := fd_loop duration_units ns []
  if parts = [] then "0s" else String.join parts

/-- The text `f"{value}{name}"` of one duration part, from the value and
the unit name it was built from. -/
def fd_fmt (p : Nat × String) : String :=
  toString p.1 ++ p.2

/-- A sorted duplicate-free listing of a finite set of strings is exactly
its `Finset.sort` listing. -/
theorem sort_eq_of_sorted (l : List String) (s : Finset String)
    (hs : l.Sorted (· ≤ ·)) (hn : l.Nodup) (ht : l.toFinset = s) :
    s.sort (· ≤ ·) = l := by
  refine List.eq_of_perm_of_sorted ?_ (Finset.sort_sorted _ _) hs
  refine List.perm_of_nodup_nodup_toFinset_eq (Finset.sort_nodup _ _) hn ?_
  rw [Finset.sort_toFinset, ht]

/-- Membership after the inner name loop: an element is either carried
over from the accumulator or is the resolution of the first segment of
some collected name that is not a standard-library name. -/
theorem mem_foldl_step_name (stdlib : List String)
    (idx : List (String × List String)) (names : List String) :
    ∀ (acc : Finset String) (x : String),
    (x ∈ names.foldl (step_name stdlib idx) acc ↔
      x ∈ acc ∨ ∃ full ∈ names, first_segment full ∉ stdlib ∧
        x = resolve_distribution (first_segment full) idx) := by
  induction names with
  | nil => intro acc x; simp
  | cons hd tl ih =>
    intro acc x
    rw [List.foldl_cons, ih]
    by_cases h : first_segment hd ∈ stdlib
    · simp [step_name, h, List.exists_mem_cons_iff]
    · simp [step_name, h, List.exists_mem_cons_iff]
      tauto

/-- Membership after the walk loop: an element is either carried over or
arises, as above, from a name collected from one of the walked nodes. -/
theorem mem_foldl_step_node (stdlib : List String)
    (idx : List (String × List String)) (nodes : List AstNode) :
    ∀ (acc : Finset String) (x : String),
    (x ∈ nodes.foldl (step_node stdlib idx) acc ↔
      x ∈ acc ∨ ∃ node ∈ nodes, ∃ full ∈ collected_names node,
        first_segment full ∉ stdlib ∧
          x = resolve_distribution (first_segment full) idx) := by
  induction nodes with
  | nil => intro acc x; simp
  | cons hd tl ih =>
    intro acc x
    rw [List.foldl_cons, ih]
    simp only [step_node]
    rw [mem_foldl_step_name]
    constructor
    · rintro ((hx | ⟨full, hfull, hns, hx⟩) | ⟨node, hnode, hrest⟩)
      · exact Or.inl hx
      · exact Or.inr ⟨hd, List.mem_cons_self hd tl, full, hfull, hns, hx⟩
      · exact Or.inr ⟨node, List.mem_cons_of_mem hd hnode, hrest⟩
    · rintro (hx | ⟨node, hnode, hrest⟩)
      · exact Or.inl (Or.inl hx)
      · rcases List.mem_cons.mp hnode with rfl | hmem
        · exact Or.inl (Or.inr hrest)
        · exact Or.inr ⟨node, hmem, hrest⟩

/-- Membership in the extracted set of a whole tree. -/
theorem mem_extract_nodes (stdlib : List String)
    (idx : List (String × List String)) (nodes : List AstNode) (x : String) :
    x ∈ extract_nodes stdlib idx nodes ↔
      ∃ node ∈ nodes, ∃ full ∈ collected_names node,
        first_segment full ∉ stdlib ∧
          x = resolve_distribution (first_segment full) idx := by
  unfold extract_nodes
  rw [mem_foldl_step_node]
  simp

/-- A missing or syntactically invalid file anywhere in the list makes the
sequential scanning loop end in an error. -/
theorem scan_files_error (stdlib : List String)
    (idx : List (String × List String)) (files : List FileState)
    (h : ∃ f ∈ files, f = FileState.missing ∨ f = FileState.invalid) :
    ∃ e, scan_files stdlib idx files = Except.error e := by
  induction files with
  | nil => simp at h
  | cons hd tl ih =>
    obtain ⟨f, hf, hbad⟩ := h
    rcases List.mem_cons.mp hf with rfl | hmem
    · rcases hbad with rfl | rfl
      · exact ⟨.notFound, rfl⟩
      · exact ⟨.parseError, rfl⟩
    · cases hd with
      | missing => exact ⟨.notFound, rfl⟩
      | invalid => exact ⟨.parseError, rfl⟩
      | valid nodes =>
        obtain ⟨e, he⟩ := ih ⟨f, hmem, hbad⟩
        exact ⟨e, by simp [scan_files, find_third_party_imports, he]⟩

/-- C1: `resolve_distribution` returns the first candidate exactly when a
candidate list exists whose first entry differs from the module name; in
the remaining cases (no mapping, empty candidate list, or a first entry
equal to the name) it returns the name unchanged, and — being a plain
total function — it never raises. The last three conjuncts are the
resolver examples of the specification. -/
theorem resolve_distribution_spec :
    (∀ (m : String) (idx : List (String × List String)) (d : String)
        (rest : List String),
      idx.lookup m = some (d :: rest) → d ≠ m → resolve_distribution m idx = d)
    ∧ (∀ (m : String) (idx : List (String × List String)),
      idx.lookup m = none → resolve_distribution m idx = m)
    ∧ (∀ (m : String) (idx : List (String × List String)),
      idx.lookup m = some [] → resolve_distribution m idx = m)
    ∧ (∀ (m : String) (idx : List (String × List String)) (rest : List String),
      idx.lookup m = some (m :: rest) → resolve_distribution m idx = m)
    ∧ resolve_distribution "yaml" [("yaml", ["PyYAML"])] = "PyYAML"
    ∧ resolve_distribution "os" [("yaml", ["PyYAML"])] = "os"
    ∧ resolve_distribution "requests" [("requests", ["requests"])] = "requests" := by
  refine ⟨?_, ?_, ?_, ?_, by decide, by decide, by decide⟩
  · intro m idx d rest h hne
    simp [resolve_distribution, h, hne]
  · intro m idx h
    simp [resolve_distribution, h]
  · intro m idx h
    simp [resolve_distribution, h]
  · intro m idx rest h
    simp [resolve_distribution, h]

/-- Witness for C1 at the specification's own example index. -/
theorem resolve_distribution_spec_witness :
    resolve_distribution "yaml" [("yaml", ["PyYAML"])] = "PyYAML" :=
  resolve_distribution_spec.1 "yaml" [("yaml", ["PyYAML"])] "PyYAML" []
    (by decide) (by decide)

/-- C3: every member of the extracted set is the resolution of the first
dot-separated segment of some collected name — everything after the first
dot is discarded — and concretely `import a.b.c` as well as
`from a.b.c import x` contribute exactly the bare name `a`. -/
theorem extract_first_segment_spec :
    (∀ (stdlib : List String) (idx : List (String × List String))
        (nodes : List AstNode) (x : String),
      x ∈ extract_nodes stdlib idx nodes ↔
        ∃ node ∈ nodes, ∃ full ∈ collected_names node,
          first_segment full ∉ stdlib ∧
            x = resolve_distribution (first_segment full) idx)
    ∧ first_segment "a.b.c" = "a"
    ∧ extract_nodes [] [] [AstNode.importStmt ["a.b.c"]] = {"a"}
    ∧ extract_nodes [] [] [AstNode.importFrom (some "a.b.c")] = {"a"} :=
  ⟨mem_extract_nodes, by decide, by decide, by decide⟩

/-- C4: every element of the extracted set arises from a collected name
whose first segment is outside the standard-library index, so a file all
of whose collected names have standard-library first segments extracts the
empty set. -/
theorem extract_stdlib_never_added :
    (∀ (stdlib : List String) (idx : List (String × List String))
        (nodes : List AstNode) (x : String),
      x ∈ extract_nodes stdlib idx nodes →
        ∃ node ∈ nodes, ∃ full ∈ collected_names node,
          first_segment full ∉ stdlib ∧
            x = resolve_distribution (first_segment full) idx)
    ∧ (∀ (stdlib : List String) (idx : List (String × List String))
        (nodes : List AstNode),
      (∀ node ∈ nodes, ∀ full ∈ collected_names node,
          first_segment full ∈ stdlib) →
        extract_nodes stdlib idx nodes = ∅) := by
  constructor
  · intro stdlib idx nodes x hx
    exact (mem_extract_nodes stdlib idx nodes x).mp hx
  · intro stdlib idx nodes hall
    rw [Finset.eq_empty_iff_forall_not_mem]
    intro x hx
    obtain ⟨node, hnode, full, hfull, hns, _⟩ :=
      (mem_extract_nodes stdlib idx nodes x).mp hx
    exact hns (hall node hnode full hfull)

/-- Witness for C4: a file importing only `os.path` and `sys`, against a
standard-library index holding `os` and `sys`, extracts nothing. -/
theorem extract_stdlib_never_added_witness :
    extract_nodes ["os", "sys"] [("os", ["fake-os"])]
      [AstNode.importStmt ["os.path", "sys"], AstNode.importFrom (some "os")]
      = ∅ :=
  extract_stdlib_never_added.2 ["os", "sys"] [("os", ["fake-os"])]
    [AstNode.importStmt ["os.path", "sys"], AstNode.importFrom (some "os")]
    (by decide)

/-- C9: a relative from-import with no named module (`from . import x`,
walked as an `ImportFrom` node whose module is absent) contributes no
name: dropping such a node anywhere in the walk leaves the extracted set
unchanged. -/
theorem import_from_relative_skipped :
    collected_names (AstNode.importFrom none) = []
    ∧ (∀ (stdlib : List String) (idx : List (String × List String))
        (pre post : List AstNode),
      extract_nodes stdlib idx (pre ++ AstNode.importFrom none :: post) =
        extract_nodes stdlib idx (pre ++ post)) := by
  refine ⟨rfl, ?_⟩
  intro stdlib idx pre post
  simp [extract_nodes, List.foldl_append, List.foldl_cons, step_node,
    collected_names]

/-- C6: over the abstract parse outcomes, `find_third_party_imports`
raises the not-found error exactly on a path that is not a regular file,
raises the parse error exactly on an existing file whose content does not
parse, and on a valid file raises neither, returning the extracted set. -/
theorem find_third_party_imports_errors :
    ∀ (stdlib : List String) (idx : List (String × List String))
      (file : FileState),
    (find_third_party_imports stdlib idx file = Except.error ExtractError.notFound
      ↔ file = FileState.missing)
    ∧ (find_third_party_imports stdlib idx file = Except.error ExtractError.parseError
      ↔ file = FileState.invalid)
    ∧ (∀ nodes, file = FileState.valid nodes →
        find_third_party_imports stdlib idx file =
          Except.ok (extract_nodes stdlib idx nodes)) := by
  intro stdlib idx file
  cases file <;> simp [find_third_party_imports]

/-- Witness for C6 at a concrete syntactically valid file. -/
theorem find_third_party_imports_errors_witness :
    find_third_party_imports [] [] (FileState.valid [AstNode.other]) =
      Except.ok (extract_nodes [] [] [AstNode.other]) :=
  (find_third_party_imports_errors [] [] (FileState.valid [AstNode.other])).2.2
    [AstNode.other] rfl

/-- C2: the finalized manifest decision. A non-empty resolved set makes
the driver write (overwriting whatever was there) exactly the set's
elements, each on one LF-terminated line, listed without duplicates in
lexicographically ascending order; an empty set makes it end with no
manifest on disk, whether or not one existed before. -/
theorem manifest_decision_spec :
    ∀ (s : Finset String) (manifest : Option String),
    (s.Nonempty →
      manifest_step s manifest = some (requirements_text s)
      ∧ requirements_text s =
          String.join ((s.sort (· ≤ ·)).map (fun module => module ++ "\n"))
      ∧ List.Sorted (· ≤ ·) (s.sort (· ≤ ·))
      ∧ (s.sort (· ≤ ·)).Nodup
      ∧ (∀ x, x ∈ s.sort (· ≤ ·) ↔ x ∈ s))
    ∧ (s = ∅ → manifest_step s manifest = none) := by
  intro s manifest
  constructor
  · intro hne
    have hcard : s.card ≠ 0 := by
      rw [Finset.card_ne_zero]
      exact hne
    have hemp : s ≠ ∅ := Finset.nonempty_iff_ne_empty.mp hne
    refine ⟨?_, rfl, Finset.sort_sorted _ _, Finset.sort_nodup _ _,
      fun x => Finset.mem_sort _⟩
    simp [manifest_step, write_requirements, hcard, hemp]
  · intro he
    simp [manifest_step, he]

/-- Witness for C2 at the specification's end-to-end example set, where
the written listing is concretely `PyYAML\nnumpy\n`. -/
theorem manifest_decision_spec_witness :
    manifest_step {"numpy", "PyYAML"} (some "stale") = some "PyYAML\nnumpy\n" := by
  have h := (manifest_decision_spec {"numpy", "PyYAML"} (some "stale")).1 (by decide)
  rw [h.1, h.2.1, sort_eq_of_sorted ["PyYAML", "numpy"] _ ?_ (by decide) (by decide)]
  · decide
  · simp [List.sorted_cons, String.le_iff_toList_le]
    decide

/-- C5: an extraction failure on any candidate file (a missing file or a
parse failure) makes the whole run end in an error, and the manifest state
is exactly what it was before the run: no write and no delete happens. -/
theorem scan_error_aborts :
    ∀ (stdlib : List String) (idx : List (String × List String))
      (listing : List String) (current_file : String)
      (content : String → FileState) (manifest : Option String),
    (∃ name ∈ candidate_files listing current_file,
      content name = FileState.missing ∨ content name = FileState.invalid) →
    (∃ e, (main_run stdlib idx listing current_file content manifest).1 =
      Except.error e)
    ∧ (main_run stdlib idx listing current_file content manifest).2 =
      manifest := by
  intro stdlib idx listing current_file content manifest h
  obtain ⟨name, hmem, hbad⟩ := h
  have hscan := scan_files_error stdlib idx
    ((candidate_files listing current_file).map content)
    ⟨content name, List.mem_map_of_mem content hmem, hbad⟩
  obtain ⟨e, he⟩ := hscan
  have hne : (candidate_files listing current_file).isEmpty = false := by
    cases hcf : candidate_files listing current_file with
    | nil => rw [hcf] at hmem; cases hmem
    | cons a l => rfl
  constructor
  · exact ⟨e, by simp [main_run, hne, he]⟩
  · simp [main_run, hne, he]

/-- Witness for C5: one candidate file whose path is not a regular file. -/
theorem scan_error_aborts_witness :
    (∃ e, (main_run [] [] ["a.py"] "self.py" (fun _ => FileState.missing)
      (some "keep")).1 = Except.error e)
    ∧ (main_run [] [] ["a.py"] "self.py" (fun _ => FileState.missing)
      (some "keep")).2 = some "keep" :=
  scan_error_aborts [] [] ["a.py"] "self.py" (fun _ => FileState.missing)
    (some "keep") ⟨"a.py", by decide, Or.inl rfl⟩

/-- C7: when the candidate enumeration is empty, `main` returns early and
normally, and the manifest state — existing or not — is left exactly as it
was. -/
theorem no_candidates_leaves_manifest :
    ∀ (stdlib : List String) (idx : List (String × List String))
      (listing : List String) (current_file : String)
      (content : String → FileState) (manifest : Option String),
    candidate_files listing current_file = [] →
    main_run stdlib idx listing current_file content manifest =
      (Except.ok (), manifest) := by
  intro stdlib idx listing current_file content manifest h
  simp [main_run, h]

/-- Witness for C7: a listing with no Python files next to an existing
manifest. -/
theorem no_candidates_leaves_manifest_witness :
    main_run [] [] ["readme.md", "generate_requirements.txt.pyw"]
      "generate_requirements.txt.py" (fun _ => FileState.missing)
      (some "old manifest") = (Except.ok (), some "old manifest") :=
  no_candidates_leaves_manifest [] []
    ["readme.md", "generate_requirements.txt.pyw"]
    "generate_requirements.txt.py" (fun _ => FileState.missing)
    (some "old manifest") (by decide)

/-- C8: the scan is a pure function of the file contents and the installed
package index — extensionally equal directory contents give identical
runs — and the full run is idempotent: rerunning on the unchanged
directory, starting from the manifest the first run left behind, changes
nothing and reproduces a byte-identical manifest. -/
theorem scan_deterministic_idempotent :
    (∀ (stdlib : List String) (idx : List (String × List String))
        (listing : List String) (current_file : String)
        (content1 content2 : String → FileState) (manifest : Option String),
      (∀ f, content1 f = content2 f) →
      main_run stdlib idx listing current_file content1 manifest =
        main_run stdlib idx listing current_file content2 manifest)
    ∧ (∀ (stdlib : List String) (idx : List (String × List String))
        (listing : List String) (current_file : String)
        (content : String → FileState) (manifest : Option String),
      main_run stdlib idx listing current_file content
          (main_run stdlib idx listing current_file content manifest).2 =
        main_run stdlib idx listing current_file content manifest) := by
  constructor
  · intro stdlib idx listing current_file content1 content2 manifest h
    rw [funext h]
  · intro stdlib idx listing current_file content manifest
    by_cases hE : (candidate_files listing current_file).isEmpty
    · simp [main_run, hE]
    · rw [Bool.not_eq_true] at hE
      cases hscan : scan_files stdlib idx
          ((candidate_files listing current_file).map content) with
      | error e => simp [main_run, hE, hscan]
      | ok s =>
        simp only [main_run, hE, hscan, Bool.false_eq_true, if_false]
        by_cases hc : s.card = 0
        · simp [manifest_step, hc]
        · have hne : s ≠ ∅ := by
            intro h
            rw [h] at hc
            simp at hc
          simp [manifest_step, hc, write_requirements, hne]

/-- Witness for C8: two syntactically different but pointwise equal
directory contents give the same run. -/
theorem scan_deterministic_idempotent_witness :
    main_run [] [] ["a.py"] "self.py" (fun _ => FileState.valid []) none =
      main_run [] [] ["a.py"] "self.py"
        (fun f => if f = "a.py" then FileState.valid [] else FileState.valid [])
        none :=
  scan_deterministic_idempotent.1 [] [] ["a.py"] "self.py"
    (fun _ => FileState.valid [])
    (fun f => if f = "a.py" then FileState.valid [] else FileState.valid [])
    none (fun f => by by_cases h : f = "a.py" <;> simp [h])

/-- Each accumulator shape reachable in the duration loop is a rendering
of a short list of non-zero values tagged with unit names drawn, in
order, from the remaining unit table. -/
theorem fd_loop_parts (us : List (String × Nat)) :
    ∀ (ns : Nat) (vals0 : List (Nat × String)),
    vals0.length < 2 → (∀ p ∈ vals0, p.1 ≠ 0) →
    ∃ vals : List (Nat × String),
      fd_loop us ns (vals0.map fd_fmt) = vals.map fd_fmt
      ∧ (∀ p ∈ vals, p.1 ≠ 0) ∧ vals.length ≤ 2
      ∧ List.Sublist (vals.map Prod.snd)
          (vals0.map Prod.snd ++ us.map Prod.fst) := by
  induction us with
  | nil =>
    intro ns vals0 hlen hnz
    refine ⟨vals0, rfl, hnz, Nat.le_of_lt hlen, ?_⟩
    simp
  | cons u rest ih =>
    intro ns vals0 hlen hnz
    obtain ⟨name, factor⟩ := u
    by_cases hv : ns / factor = 0
    · have hstep : fd_loop ((name, factor) :: rest) ns (vals0.map fd_fmt) =
          if (vals0.map fd_fmt).length = 2 then vals0.map fd_fmt
          else fd_loop rest (ns % factor) (vals0.map fd_fmt) := by
        simp [fd_loop, hv]
      have hlen2 : ¬(vals0.map fd_fmt).length = 2 := by
        rw [List.length_map]
        omega
      rw [hstep, if_neg hlen2]
      obtain ⟨vals, h1, h2, h3, h4⟩ := ih (ns % factor) vals0 hlen hnz
      refine ⟨vals, h1, h2, h3, h4.trans ?_⟩
      exact (List.sublist_cons_self name (rest.map Prod.fst)).append_left _
    · have hstep : fd_loop ((name, factor) :: rest) ns (vals0.map fd_fmt) =
          if ((vals0 ++ [(ns / factor, name)]).map fd_fmt).length = 2
          then (vals0 ++ [(ns / factor, name)]).map fd_fmt
          else fd_loop rest (ns % factor)
            ((vals0 ++ [(ns / factor, name)]).map fd_fmt) := by
        simp [fd_loop, hv, fd_fmt]
      have hnz2 : ∀ p ∈ vals0 ++ [(ns / factor, name)], p.1 ≠ 0 := by
        intro p hp
        rcases List.mem_append.mp hp with h | h
        · exact hnz p h
        · rw [List.mem_singleton] at h
          rw [h]
          exact hv
      rw [hstep]
      by_cases h2 : ((vals0 ++ [(ns / factor, name)]).map fd_fmt).length = 2
      · rw [if_pos h2]
        rw [List.length_map] at h2
        refine ⟨vals0 ++ [(ns / factor, name)], rfl, hnz2, Nat.le_of_eq h2, ?_⟩
        rw [List.map_append]
        refine List.Sublist.append_left ?_ _
        simp
      · rw [if_neg h2]
        have h2x : ¬vals0.length + 1 = 2 := by
          simpa using h2
        have hlen2 : (vals0 ++ [(ns / factor, name)]).length < 2 := by
          simp only [List.length_append, List.length_cons, List.length_nil]
          omega
        obtain ⟨vals, h1, h3, h4, h5⟩ :=
          ih (ns % factor) (vals0 ++ [(ns / factor, name)]) hlen2 hnz2
        refine ⟨vals, h1, h3, h4, ?_⟩
        simp only [List.map_append, List.map_cons, List.map_nil,
          List.append_assoc, List.singleton_append] at h5 ⊢
        exact h5

/-- C10: for every non-negative duration the loop collects at most two
parts, each the rendering of a non-zero value with its unit name, the
names appearing in the table's largest-to-smallest order (not necessarily
adjacent); a zero duration prints `0s`, and one second plus 500
nanoseconds prints `1s500ns`. -/
theorem format_duration_long_spec :
    (∀ ns : Nat, ∃ vals : List (Nat × String),
      fd_loop duration_units ns [] = vals.map fd_fmt
      ∧ (∀ p ∈ vals, p.1 ≠ 0) ∧ vals.length ≤ 2
      ∧ List.Sublist (vals.map Prod.snd) (duration_units.map Prod.fst)
      ∧ format_duration_long ns =
          (if vals = [] then "0s" else String.join (vals.map fd_fmt)))
    ∧ format_duration_long 0 = "0s"
    ∧ format_duration_long 1000000500 = "1s500ns" := by
  refine ⟨?_, by decide, by decide⟩
  intro ns
  obtain ⟨vals, h1, h2, h3, h4⟩ :=
    fd_loop_parts duration_units ns [] (by simp) (by simp)
  have h1x : fd_loop duration_units ns [] = vals.map fd_fmt := by
    simpa using h1
  have h4x : List.Sublist (vals.map Prod.snd) (duration_units.map Prod.fst) := by
    simpa using h4
  refine ⟨vals, h1x, h2, h3, h4x, ?_⟩
  simp only [format_duration_long]
  rw [h1x]
  by_cases hv : vals = []
  · simp [hv]
  · simp [hv]
